import Mathlib

/-!
Verification of the two browser-side scripts in this repository:

* `admin-styles.js` (PublishPress Capabilities admin color-scheme customizer):
  `sanitizeCssUrl`, `handleSchemeSelection`, `hexToRgb`, `rgbToHex`,
  `lightenColor`, `darkenColor`.
* `twae-migration.js` (Timeline Widget migration notice):
  the dismiss click handler, the `#twae-run-migration` click handler,
  `updateMigrationButtonState`, and the `after:save` handler.

Strings are embedded as `List Char`.  JavaScript string primitives
(`trim`, `toLowerCase`, `indexOf(...) === 0`, `replace`, `match(/\d+/g)`,
`parseInt`, number-to-string) are modelled character by character below.
-/

/-! ## JavaScript string primitives -/

/-- Characters removed by JavaScript `String.prototype.trim`
(ASCII whitespace and line terminators; exotic Unicode space separators,
which never occur in the inputs at issue, are omitted). -/
def jsWhitespace (c : Char) : Bool :=
  c == ' ' || c == '\t' || c == '\n' || c == '\r' || c == '\x0b' || c == '\x0c'

/-- JavaScript `String.prototype.trim`: drop leading and trailing whitespace. -/
def jsTrim (s : List Char) : List Char :=
  ((s.dropWhile jsWhitespace).reverse.dropWhile jsWhitespace).reverse

/-- The ASCII uppercase-to-lowercase mapping applied by JavaScript
`String.prototype.toLowerCase` on the ASCII range (the only range the
scripts' comparisons involve). -/
def lowerPairs : List (Char × Char) :=
  [('A', 'a'), ('B', 'b'), ('C', 'c'), ('D', 'd'), ('E', 'e'), ('F', 'f'), ('G', 'g'),
   ('H', 'h'), ('I', 'i'), ('J', 'j'), ('K', 'k'), ('L', 'l'), ('M', 'm'), ('N', 'n'),
   ('O', 'o'), ('P', 'p'), ('Q', 'q'), ('R', 'r'), ('S', 's'), ('T', 't'), ('U', 'u'),
   ('V', 'v'), ('W', 'w'), ('X', 'x'), ('Y', 'y'), ('Z', 'z')]

def lowerWith (c : Char) : Option (Char × Char) → Char
  | some p => p.2
  | none => c

/-- ASCII single-character lowercasing. -/
def lowerChar (c : Char) : Char :=
  lowerWith c (lowerPairs.find? (fun p => p.1 == c))

/-- JavaScript `String.prototype.toLowerCase` (ASCII range). -/
def jsToLower (s : List Char) : List Char :=
  s.map lowerChar

/-! ## URL parsing (`new URL(trimmed, window.location.origin)`)

The script runs in a browser where the WHATWG `URL` constructor is
available (`typeof URL === 'function'`).  The constructor can THROW, and
the source wraps it in a try/catch whose catch block falls through and
continues (admin-styles.js lines 51-53), so a URL that fails to parse is
NOT rejected by the protocol check.  The parse is therefore modelled as
an `Option`: `some protocol` when the constructor succeeds, `none` when
it throws.

Success and failure follow the WHATWG parser:
* a string is absolute when, after removal of ASCII tab and newline, it
  starts with an ASCII-alpha scheme of alphanumerics and `+`/`-`/`.`
  followed by `:`; the parsed `protocol` is the scheme lowercased plus
  `:`;
* an absolute URL with a special scheme (`http`, `https`, `ws`, `wss`,
  `ftp`, `file`) throws when its authority has an empty host (`file`
  excepted), a forbidden host code point, or a non-numeric port — e.g.
  `new URL("ftp://")` and `new URL("wss://")` throw — while non-special
  schemes (`javascript:`, `data:`, `mailto:`, …) take the opaque-path
  route and do not throw;
* a scheme-less string resolves against the page origin (`https:` for a
  WordPress admin page); only protocol-relative `//…` (or `\\…`) forms
  re-parse an authority and can throw, every other relative form
  succeeds with the base's `https:` protocol. -/

def schemeChar (c : Char) : Bool :=
  c.isAlpha || c.isDigit || c == '+' || c == '-' || c == '.'

/-- Scheme scanner returning the scheme and the remainder after `:`. -/
def schemeLoopRest (acc : List Char) : List Char → Option (List Char × List Char)
  | [] => none
  | c :: rest =>
    if c = ':' then some (acc, rest)
    else if schemeChar c then schemeLoopRest (acc ++ [c]) rest
    else none

def extractSchemeRest : List Char → Option (List Char × List Char)
  | [] => none
  | c :: rest => if c.isAlpha then schemeLoopRest [c] rest else none

/-- The scheme of an absolute URL string, if any. -/
def extractScheme (s : List Char) : Option (List Char) :=
  (extractSchemeRest s).map (fun p => p.1)

/-- The WHATWG URL parser removes ASCII tab and newline before parsing. -/
def stripTabNewline (s : List Char) : List Char :=
  s.filter (fun c => !(c == '\t' || c == '\n' || c == '\r'))

/-- WHATWG forbidden host code points, restricted to those that can still
occur in the host text after delimiting (tab and newline are stripped
earlier; `/`, `\`, `?`, `#` end the authority; `@` ends the userinfo; the
port is split at `:`). -/
def forbiddenHostChar (c : Char) : Bool :=
  c == Char.ofNat 0 || c == ' ' || c == '#' || c == '/' || c == '<' || c == '>' ||
  c == '?' || c == '@' || c == '[' || c == '\\' || c == ']' || c == '^' || c == '|'

/-- The authority segment of a special-scheme URL: all slashes after the
colon are skipped (the `special authority ignore slashes` state), then
the authority runs until a path, query or fragment delimiter. -/
def authorityOf (rest : List Char) : List Char :=
  (rest.dropWhile (fun c => c == '/' || c == '\\')).takeWhile
    (fun c => !(c == '/' || c == '\\' || c == '?' || c == '#'))

/-- The host-and-port part of an authority: what follows the last `@`. -/
def hostPortOf (auth : List Char) : List Char :=
  (auth.reverse.takeWhile (fun c => !(c == '@'))).reverse

/-- Does a host-and-port parse for a special non-`file` scheme?  The host
must be non-empty and free of forbidden code points (a `[…]` IPv6 form
needs its closing bracket) and the port must be digits. -/
def hostValid (hp : List Char) : Bool :=
  match hp with
  | '[' :: rest => rest.contains ']'
  | _ =>
    let host := hp.takeWhile (fun c => !(c == ':'))
    let port := (hp.dropWhile (fun c => !(c == ':'))).drop 1
    !host.isEmpty && host.all (fun c => !(forbiddenHostChar c)) && port.all Char.isDigit

def specialSchemes : List (List Char) :=
  ["http".toList, "https".toList, "ws".toList, "wss".toList, "ftp".toList, "file".toList]

/-- Does `new URL` succeed on an absolute URL with scheme `s` and
post-colon remainder `rest`?  `file` URLs may have an empty host but no
port; other special schemes go through `hostValid`; non-special schemes
do not throw. -/
def urlParseOk (s rest : List Char) : Bool :=
  let ls := jsToLower s
  if specialSchemes.contains ls then
    let hp := hostPortOf (authorityOf rest)
    if ls == "file".toList then hp.all (fun c => !(forbiddenHostChar c || c == ':'))
    else hostValid hp
  else true

/-- Does resolving a scheme-less string against the `https:` page origin
succeed?  Only protocol-relative `//…` (or `\\…`) forms re-parse an
authority and can fail. -/
def relativeParseOk (u : List Char) : Bool :=
  match u with
  | c1 :: c2 :: _ =>
    if (c1 == '/' || c1 == '\\') && (c2 == '/' || c2 == '\\') then
      hostValid (hostPortOf (authorityOf u))
    else true
  | _ => true

/-- `new URL(t, window.location.origin)`: `some protocol` (lowercased —
the source applies `.toLowerCase()` on top, a no-op here) on success,
`none` when the constructor throws. -/
def urlProtocol (t : List Char) : Option (List Char) :=
  match extractSchemeRest (stripTabNewline t) with
  | some (s, rest) => if urlParseOk s rest then some (jsToLower s ++ [':']) else none
  | none =>
    if relativeParseOk (stripTabNewline t) then some "https:".toList else none

/-- The protocol gate of admin-styles.js lines 43-53: rejection requires a
SUCCESSFUL parse yielding a protocol that is neither `http:` nor
`https:`; when the constructor throws, the catch block falls back and
the function continues. -/
def urlRejects (t : List Char) : Bool :=
  match urlProtocol t with
  | some protocol => !(protocol == "http:".toList || protocol == "https:".toList)
  | none => false

/-! ## The cache-busting regex `/([?&])ver=\d+(&?)/`

`trimmed.replace(/([?&])ver=\d+(&?)/, fn)` with a non-global regex
replaces only the first (leftmost) match.  The callback returns `p1`
when the trailing `&` was captured and the empty string otherwise. -/

/-- Does `s` start with `?ver=` or `&ver=` (the mandatory part of a match)? -/
def verAt (s : List Char) : Bool :=
  match s with
  | c :: rest => (c == '?' || c == '&') && "ver=".toList.isPrefixOf rest
  | [] => false

/-- Try to match `([?&])ver=\d+(&?)` at the head of the string.  Returns the
replacement text and the remainder after the matched text, or `none`. -/
def tryMatch : List Char → Option (List Char × List Char)
  | [] => none
  | p :: rest =>
    if verAt (p :: rest) then
      let after := rest.drop 4
      let ds := after.takeWhile Char.isDigit
      if ds.isEmpty then none
      else
        match after.dropWhile Char.isDigit with
        | '&' :: rem => some ([p], rem)
        | rem => some ([], rem)
    else none

/-- `s.replace(/([?&])ver=\d+(&?)/, (m, p1, p2) => p2 ? p1 : '')`:
replace the leftmost match, leave everything else unchanged. -/
def replaceVer : List Char → List Char
  | [] => []
  | c :: rest =>
    match tryMatch (c :: rest) with
    | some (repl, remainder) => repl ++ remainder
    | none => c :: replaceVer rest

/-- Number of `ver=` query parameters in a URL string: occurrences of the
substring `ver=` immediately preceded by `?` or `&`. -/
def countVer : List Char → Nat
  | [] => 0
  | c :: rest => (if verAt (c :: rest) then 1 else 0) + countVer rest

/-- Fuel-driven auxiliary for decimal rendering (structural recursion so that
the kernel can evaluate it on concrete inputs). -/
def natDigitsAux : Nat → Nat → List Char
  | 0, _ => []
  | fuel + 1, n =>
    if n < 10 then [Nat.digitChar n]
    else natDigitsAux fuel (n / 10) ++ [Nat.digitChar (n % 10)]

/-- Decimal digits of a natural number, as produced by JavaScript
number-to-string for a nonnegative integer (`Date.now()`, `String(r)`). -/
def natToDigits (n : Nat) : List Char :=
  natDigitsAux (n + 1) n

/-! ## `sanitizeCssUrl` (admin-styles.js lines 19-70)

`currentScheme` is `Option (List Char)` because the only call site inside
`handleSchemeSelection` passes `this.currentScheme` where `this` is the
clicked DOM element, i.e. the JavaScript value `undefined` (`none` here);
a string argument is `some s`.  `isSafe` is the optional validator.
`now` is the value of `Date.now()`. -/

def safeCheckFails (isSafe : Option (List Char → Bool)) (t : List Char) : Bool :=
  match isSafe with
  | some f => !(f t)
  | none => false

def sanitizeCssUrl (cssUrl : List Char) (currentScheme : Option (List Char))
    (isSafe : Option (List Char → Bool)) (now : Nat) : Option (List Char) :=
  let trimmed := jsTrim cssUrl
  if trimmed = [] then none
  else if safeCheckFails isSafe trimmed then none
  else
    let lower := jsToLower trimmed
    if "javascript:".toList.isPrefixOf lower || "data:".toList.isPrefixOf lower
        || "vbscript:".toList.isPrefixOf lower then none
    else if urlRejects trimmed then none
    else if currentScheme = some "publishpress-custom".toList then
      let newUrl := replaceVer trimmed
      if newUrl.contains '?' then some (newUrl ++ "&ver=".toList ++ natToDigits now)
      else some (newUrl ++ "?ver=".toList ++ natToDigits now)
    else some trimmed

/-! ## Color helpers (admin-styles.js lines 745-802)

`hexToRgb`, `rgbToHex`, `lightenColor`, `darkenColor`. -/

/-- Value of a hexadecimal digit, as accepted by `parseInt(s, 16)`
(codepoints 48-57 are `0`-`9`, 97-102 are `a`-`f`, 65-70 are `A`-`F`). -/
def hexDigitVal (c : Char) : Option Nat :=
  let n := c.toNat
  if 48 ≤ n && n ≤ 57 then some (n - 48)
  else if 97 ≤ n && n ≤ 102 then some (n - 87)
  else if 65 ≤ n && n ≤ 70 then some (n - 55)
  else none

def parseHexLoop (acc : Nat) : List Char → Nat
  | [] => acc
  | c :: rest =>
    match hexDigitVal c with
    | some v => parseHexLoop (acc * 16 + v) rest
    | none => acc

/-- `parseInt(s, 16)`: parse the longest hexadecimal prefix; `none` is `NaN`
(no leading hex digit). -/
def parseIntHex (s : List Char) : Option Nat :=
  match s with
  | [] => none
  | c :: rest =>
    match hexDigitVal c with
    | some v => some (parseHexLoop v rest)
    | none => none

/-- `s.replace('#', '')` with a string pattern: remove the first occurrence. -/
def removeFirstHash : List Char → List Char
  | [] => []
  | c :: rest => if c = '#' then rest else c :: removeFirstHash rest

/-- JavaScript string conversion of a `parseInt` result: decimal digits, or
the text `NaN` when the parse failed. -/
def natOrNaN : Option Nat → List Char
  | some n => natToDigits n
  | none => "NaN".toList

/-- The 3-digit shorthand expansion `hex[0]+hex[0]+hex[1]+hex[1]+hex[2]+hex[2]`
applied when `hex.length === 3`. -/
def expand3 (h : List Char) : List Char :=
  match h with
  | [a, b, c] => [a, a, b, b, c, c]
  | other => other

/-- `hexToRgb` (admin-styles.js lines 745-757): returns the string
`r + ', ' + g + ', ' + b`. -/
def hexToRgb (hex : List Char) : List Char :=
  let h := removeFirstHash hex
  let h6 := expand3 h
  let r := parseIntHex (h6.take 2)
  let g := parseIntHex ((h6.drop 2).take 2)
  let b := parseIntHex ((h6.drop 4).take 2)
  natOrNaN r ++ ", ".toList ++ natOrNaN g ++ ", ".toList ++ natOrNaN b

/-- Auxiliary scan for `digitRuns`: `cur` is the current digit run,
accumulated in reverse. -/
def digitRunsGo (cur : List Char) : List Char → List (List Char)
  | [] => if cur.isEmpty then [] else [cur.reverse]
  | c :: rest =>
    if Char.isDigit c then digitRunsGo (c :: cur) rest
    else if cur.isEmpty then digitRunsGo [] rest
    else cur.reverse :: digitRunsGo [] rest

/-- Maximal runs of decimal digits, as returned by `s.match(/\d+/g)`
(the empty list standing for a `null` result). -/
def digitRuns (s : List Char) : List (List Char) :=
  digitRunsGo [] s

/-- `parseInt` of a complete run of decimal digits. -/
def decVal (ds : List Char) : Nat :=
  ds.foldl (fun a c => a * 10 + (c.toNat - 48)) 0

/-- Fuel-driven auxiliary for hexadecimal rendering. -/
def hexDigitsAux : Nat → Nat → List Char
  | 0, _ => []
  | fuel + 1, n =>
    if n < 16 then [Nat.digitChar n]
    else hexDigitsAux fuel (n / 16) ++ [Nat.digitChar (n % 16)]

/-- `n.toString(16)` for a natural number: lowercase hexadecimal digits. -/
def toHexStr (n : Nat) : List Char :=
  hexDigitsAux (n + 1) n

/-- `s.padStart(2, '0')`. -/
def padStart2 (s : List Char) : List Char :=
  if s.length ≥ 2 then s
  else if s.length = 1 then '0' :: s
  else ['0', '0']

/-- `rgbToHex` (admin-styles.js lines 759-772). -/
def rgbToHex (rgb : List Char) : List Char :=
  if rgb.head? = some '#' then rgb
  else
    match digitRuns rgb with
    | r0 :: g0 :: b0 :: _ =>
      '#' :: (padStart2 (toHexStr (decVal r0)) ++ padStart2 (toHexStr (decVal g0))
        ++ padStart2 (toHexStr (decVal b0)))
    | _ => rgb

/-- The channel clamp `(X < 255 ? (X < 1 ? 0 : X) : 255)`. -/
def clampByte (x : Int) : Int :=
  if x < 255 then (if x < 1 then 0 else x) else 255

/-- `lightenColor` (admin-styles.js lines 777-787).  `percent` is a natural
number; `amt = Math.round(2.55 * percent)` is modelled as exact rounding
`(51 * percent + 10) / 20` (for the inputs of interest `num < 2^24`, so the
32-bit shifts `>> 16`, `>> 8 & 0xFF`, `& 0xFF` are plain division and
remainder; a `NaN` from `parseInt` behaves as 0 under `ToInt32`, matching
`Option.getD 0`). -/
def lightenColor (color : List Char) (percent : Nat) : List Char :=
  let num : Nat := (parseIntHex (removeFirstHash color)).getD 0
  let amt : Int := ((51 * percent + 10 : Nat) : Int) / 20
  let r := clampByte ((num / 65536 : Nat) + amt)
  let g := clampByte ((num / 256 % 256 : Nat) + amt)
  let b := clampByte ((num % 256 : Nat) + amt)
  '#' :: (toHexStr (16777216 + r * 65536 + g * 256 + b).toNat).drop 1

/-- `darkenColor` (admin-styles.js lines 792-802): identical to
`lightenColor` except `amt` is negated (`* -1`). -/
def darkenColor (color : List Char) (percent : Nat) : List Char :=
  let num : Nat := (parseIntHex (removeFirstHash color)).getD 0
  let amt : Int := -(((51 * percent + 10 : Nat) : Int) / 20)
  let r := clampByte ((num / 65536 : Nat) + amt)
  let g := clampByte ((num / 256 % 256 : Nat) + amt)
  let b := clampByte ((num % 256 : Nat) + amt)
  '#' :: (toHexStr (16777216 + r * 65536 + g * 256 + b).toNat).drop 1

/-- A `#rrggbb` string: `#` followed by exactly six hexadecimal digits. -/
def isHexColor (s : List Char) : Bool :=
  match s with
  | '#' :: ds => ds.length == 6 && ds.all (fun c => (hexDigitVal c).isSome)
  | _ => false

/-- The sixteen lowercase hexadecimal digit characters. -/
def lowerHexChars : List Char :=
  "0123456789abcdef".toList

/-- A lowercase hexadecimal digit (`0`-`9`, `a`-`f`). -/
def isLowerHexDigit (c : Char) : Bool :=
  decide (c ∈ lowerHexChars)

/-- A lowercase `#rrggbb` string. -/
def isLowerHexColor (s : List Char) : Bool :=
  match s with
  | c :: ds => c == '#' && ds.length == 6 && ds.all isLowerHexDigit
  | [] => false

/-- A lowercase scheme letter `d` such that `d` itself and every uppercase
character lowercasing to `d` are ASCII letters. -/
def goodL (d : Char) : Bool :=
  d.isAlpha && lowerPairs.all (fun p => !(p.2 == d) || p.1.isAlpha)

/-! ## `handleSchemeSelection` (admin-styles.js lines 379-422)

The DOM state the handler touches: the list of `.color-option` elements
(each with its `selected` class, its checkbox `checked` class, its radio
value and its hidden `css_url` input), the `#admin_color_scheme` hidden
input, `PP_Admin_Styles.currentScheme`, and the `#colors-css` stylesheet
`href`.  Clicking option `i` runs the handler with `this` bound to that
option, so the `sanitizeCssUrl` call receives `this.currentScheme`,
which is the JavaScript value `undefined` (`none`). -/

structure SchemeOption where
  selected : Bool
  checkboxChecked : Bool
  scheme : List Char
  cssUrl : List Char
deriving DecidableEq

structure SchemeState where
  options : List SchemeOption
  adminColorScheme : List Char
  currentScheme : Option (List Char)
  stylesheetHref : Option (List Char)
deriving DecidableEq

/-- `$('.color-option').removeClass('selected')` and
`$('.color-checkbox').removeClass('checked').empty()`. -/
def clearAll : List SchemeOption → List SchemeOption :=
  List.map (fun o => { o with selected := false, checkboxChecked := false })

/-- Clear every option, then mark option `i` selected and its checkbox
checked (`$option.addClass('selected')`, …). -/
def selectOnly : Nat → List SchemeOption → List SchemeOption
  | _, [] => []
  | 0, o :: rest =>
    { o with selected := true, checkboxChecked := true } :: clearAll rest
  | Nat.succ k, o :: rest =>
    { o with selected := false, checkboxChecked := false } :: selectOnly k rest

/-- Number of `.color-option` elements carrying the `selected` class. -/
def countSelected : List SchemeOption → Nat
  | [] => 0
  | o :: rest => (if o.selected then 1 else 0) + countSelected rest

/-- The `handleSchemeSelection` click handler, clicking option `i`. -/
def handleSchemeSelection (st : SchemeState) (i : Nat)
    (isSafe : Option (List Char → Bool)) (now : Nat) : SchemeState :=
  match st.options.get? i with
  | none => st
  | some opt =>
    if opt.selected then st
    else
      let opts' := selectOnly i st.options
      let newUrl := sanitizeCssUrl opt.cssUrl none isSafe now
      let href' :=
        match newUrl with
        | some u => if u = [] then st.stylesheetHref else some u
        | none => st.stylesheetHref
      { options := opts'
        adminColorScheme := opt.scheme
        currentScheme := some opt.scheme
        stylesheetHref := href' }

/-! ## twae-migration.js

State touched by the handlers: the `hasUnsavedChanges` flag, the
`#twae-run-migration` button's `disabled` attribute and its
`opacity: 0.5` styling.  Each click handler returns the new state
together with the list of AJAX actions it posts. -/

inductive AjaxAction where
  | hideNotice
  | runMigration
deriving DecidableEq

structure TwaeState where
  hasUnsavedChanges : Bool
  buttonDisabled : Bool
  buttonOpacityHalf : Bool
deriving DecidableEq

/-- `updateMigrationButtonState` (twae-migration.js lines 45-55): given the
flag, the (`disabled`, half-opacity) pair it writes to the button. -/
def updateMigrationButtonState (flag : Bool) : Bool × Bool :=
  if flag then (true, true) else (false, false)

/-- The `elementor.channels.editor` `change` handler (lines 33-36):
`hasUnsavedChanges = checkUnsaved()` = `!elementor.saver.isSaved`. -/
def onEditorChange (_st : TwaeState) (editorSaved : Bool) : TwaeState :=
  let flag := !editorSaved
  let u := updateMigrationButtonState flag
  { hasUnsavedChanges := flag, buttonDisabled := u.1, buttonOpacityHalf := u.2 }

/-- The `after:save` handler (lines 38-41). -/
def onAfterSave (_st : TwaeState) : TwaeState :=
  let u := updateMigrationButtonState false
  { hasUnsavedChanges := false, buttonDisabled := u.1, buttonOpacityHalf := u.2 }

/-- The `#twae-run-migration` click handler (lines 58-111): when the flag is
set it shows a toast and returns without posting; otherwise it posts the
`twae_run_migration` action. -/
def onRunClick (st : TwaeState) : TwaeState × List AjaxAction :=
  if st.hasUnsavedChanges then (st, [])
  else (st, [AjaxAction.runMigration])

/-- The dismiss click handler (lines 3-16): posts the
`twae_hide_migration_notice` action unconditionally. -/
def onDismissClick (st : TwaeState) : TwaeState × List AjaxAction :=
  (st, [AjaxAction.hideNotice])

/-! ## Concrete evaluations -/

-- The URL constructor throws on a special scheme with an empty host; the
-- source's catch block falls through, so these inputs are ACCEPTED even
-- though their scheme is not http(s).
example : urlProtocol "ftp://".toList = none := by decide
example : sanitizeCssUrl "ftp://".toList none none 0 = some "ftp://".toList := by decide
example : sanitizeCssUrl "wss://".toList none none 0 = some "wss://".toList := by decide
-- A forbidden host code point (the space) also makes the constructor throw.
example : sanitizeCssUrl "http://exa mple/a.css".toList none none 0 =
    some "http://exa mple/a.css".toList := by decide
-- When the constructor succeeds with a non-http(s) protocol, the URL is
-- rejected.
example : urlProtocol "ftp://example.com/a.css".toList = some "ftp:".toList := by decide
example : sanitizeCssUrl "ftp://example.com/a.css".toList none none 0 = none := by decide
example : sanitizeCssUrl "wss://example.com/x".toList none none 0 = none := by decide

example : sanitizeCssUrl "javascript:alert(1)".toList none none 0 = none := by decide
example : sanitizeCssUrl "  ftp://example.com/a.css".toList none none 0 = none := by decide
example : sanitizeCssUrl "https://example.com/a.css".toList none none 0 =
    some "https://example.com/a.css".toList := by decide
example : sanitizeCssUrl "style.css".toList (some "publishpress-custom".toList) none 5 =
    some "style.css?ver=5".toList := by decide
example : sanitizeCssUrl "http://e.com/a?ver=1&ver=2".toList
    (some "publishpress-custom".toList) none 7 =
    some "http://e.com/a?ver=2&ver=7".toList := by decide

example : hexToRgb "#655997".toList = "101, 89, 151".toList := by decide
example : rgbToHex "rgb(101, 89, 151)".toList = "#655997".toList := by decide
example : rgbToHex ("rgb(".toList ++ hexToRgb "#0a0b0c".toList ++ [')']) =
    "#0a0b0c".toList := by decide
example : lightenColor "#655997".toList 20 = "#988cca".toList := by decide
example : lightenColor "#ffffff".toList 20 = "#ffffff".toList := by decide
example : darkenColor "#655997".toList 100 = "#000000".toList := by decide

/-! ## Lemmas about lowercasing and scheme extraction -/

lemma lowerChar_inv (c d : Char) (h : lowerChar c = d) : c = d ∨ (c, d) ∈ lowerPairs := by
  unfold lowerChar at h
  suffices H : ∀ (l : List (Char × Char)),
      lowerWith c (l.find? (fun p => p.1 == c)) = d →
      c = d ∨ (c, d) ∈ l from H lowerPairs h
  intro l
  induction l with
  | nil => intro h'; exact Or.inl h'
  | cons q rest ih =>
    intro h'
    by_cases hq : (q.1 == c) = true
    · rw [@List.find?_cons_of_pos _ (fun p => p.1 == c) q rest hq] at h'
      simp only [lowerWith] at h'
      right
      obtain ⟨a, b⟩ := q
      have ha : a = c := eq_of_beq hq
      rw [← ha, ← h']
      exact List.mem_cons_self _ _
    · rw [@List.find?_cons_of_neg _ (fun p => p.1 == c) q rest (by simpa using hq)] at h'
      rcases ih h' with h'' | h''
      · exact Or.inl h''
      · exact Or.inr (List.mem_cons_of_mem q h'')

lemma alpha_of_lowerChar (c d : Char) (h : lowerChar c = d) (hd : goodL d = true) :
    c.isAlpha = true := by
  have hd' : d.isAlpha = true ∧
      lowerPairs.all (fun p => !(p.2 == d) || p.1.isAlpha) = true := by
    simpa [goodL] using hd
  rcases lowerChar_inv c d h with rfl | hmem
  · exact hd'.1
  · have h2 := List.all_eq_true.mp hd'.2 (c, d) hmem
    simpa using h2

lemma lowerChar_colon (c : Char) (h : lowerChar c = ':') : c = ':' := by
  rcases lowerChar_inv c ':' h with rfl | hmem
  · rfl
  · have hall : ∀ p ∈ lowerPairs, p.2 ≠ ':' := by decide
    exact absurd rfl (hall (c, ':') hmem)

lemma alpha_ne_of (c x : Char) (h : c.isAlpha = true) (hx : x.isAlpha = false) : c ≠ x :=
  fun he => by rw [he, hx] at h; exact Bool.noConfusion h

lemma schemeChar_of_alpha (c : Char) (h : c.isAlpha = true) : schemeChar c = true := by
  simp [schemeChar, h]

lemma strip_pred_of_alpha (c : Char) (h : c.isAlpha = true) :
    (!(c == '\t' || c == '\n' || c == '\r')) = true := by
  have t1 : c ≠ '\t' := alpha_ne_of c _ h (by decide)
  have t2 : c ≠ '\n' := alpha_ne_of c _ h (by decide)
  have t3 : c ≠ '\r' := alpha_ne_of c _ h (by decide)
  simp [t1, t2, t3]

lemma map_lower_split : ∀ (w t r : List Char), jsToLower t = w ++ ':' :: r →
    ∃ u c rest, t = u ++ c :: rest ∧ jsToLower u = w ∧ lowerChar c = ':' := by
  intro w
  induction w with
  | nil =>
    intro t r h
    cases t with
    | nil => exact absurd h (by simp [jsToLower])
    | cons c rest =>
      simp only [jsToLower, List.map_cons, List.nil_append] at h
      exact ⟨[], c, rest, rfl, rfl, (List.cons.inj h).1⟩
  | cons d w' ih =>
    intro t r h
    cases t with
    | nil => exact absurd h (by simp [jsToLower])
    | cons x t' =>
      simp only [jsToLower, List.map_cons, List.cons_append] at h
      have h1 : lowerChar x = d := (List.cons.inj h).1
      have h2 : jsToLower t' = w' ++ ':' :: r := (List.cons.inj h).2
      obtain ⟨u, c, rest, ht, hu, hc⟩ := ih t' r h2
      refine ⟨x :: u, c, rest, ?_, ?_, hc⟩
      · rw [ht]
        rfl
      · simp only [jsToLower, List.map_cons] at hu ⊢
        rw [h1, hu]

lemma alpha_of_map_lower : ∀ (u w : List Char), jsToLower u = w →
    (∀ d ∈ w, goodL d = true) → ∀ x ∈ u, x.isAlpha = true := by
  intro u
  induction u with
  | nil => intro w _ _ x hx; cases hx
  | cons a u' ih =>
    intro w h hw x hx
    subst h
    rcases List.mem_cons.mp hx with rfl | hx'
    · exact alpha_of_lowerChar x (lowerChar x) rfl
        (hw (lowerChar x) (by simp [jsToLower]))
    · exact ih (jsToLower u') rfl
        (fun d hd => hw d (by simp only [jsToLower, List.map_cons]; right; exact hd)) x hx'

lemma schemeLoopRest_complete : ∀ (u : List Char), (∀ c ∈ u, c.isAlpha = true) →
    ∀ rest acc, schemeLoopRest acc (u ++ ':' :: rest) = some (acc ++ u, rest) := by
  intro u
  induction u with
  | nil => intro _ rest acc; simp [schemeLoopRest]
  | cons c u' ih =>
    intro hu rest acc
    have hca : c.isAlpha = true := hu c (by simp)
    have hcne : c ≠ ':' := alpha_ne_of c ':' hca (by decide)
    show schemeLoopRest acc (c :: (u' ++ ':' :: rest)) = some (acc ++ c :: u', rest)
    simp [schemeLoopRest, hcne, schemeChar_of_alpha c hca,
      ih (fun x hx => hu x (by simp [hx])) rest (acc ++ [c])]

lemma extractScheme_of_prefixed (w t : List Char) (hw : ∀ d ∈ w, goodL d = true)
    (hne : w ≠ []) (hp : (w ++ [':']).isPrefixOf (jsToLower t) = true) :
    ∃ u, extractScheme (stripTabNewline t) = some u ∧ jsToLower u = w := by
  obtain ⟨r, hr⟩ := List.isPrefixOf_iff_prefix.mp hp
  have hr' : jsToLower t = w ++ ':' :: r := by
    rw [← hr]
    simp
  obtain ⟨u, c, rest, ht, hu, hc⟩ := map_lower_split w t r hr'
  have hcc : c = ':' := lowerChar_colon c hc
  subst hcc
  subst ht
  have hualpha : ∀ x ∈ u, x.isAlpha = true := alpha_of_map_lower u w hu hw
  have hstrip : stripTabNewline (u ++ ':' :: rest) =
      u ++ ':' :: stripTabNewline rest := by
    unfold stripTabNewline
    rw [List.filter_append]
    have h1 : List.filter (fun c => !(c == '\t' || c == '\n' || c == '\r')) u = u :=
      List.filter_eq_self.mpr (fun a ha => strip_pred_of_alpha a (hualpha a ha))
    rw [h1, List.filter_cons]
    rfl
  rw [hstrip]
  cases u with
  | nil =>
    exact absurd hu.symm hne
  | cons a u' =>
    have haa : a.isAlpha = true := hualpha a (by simp)
    refine ⟨a :: u', ?_, hu⟩
    show extractScheme (a :: (u' ++ ':' :: stripTabNewline rest)) = some (a :: u')
    simp [extractScheme, extractSchemeRest, haa,
      schemeLoopRest_complete u' (fun x hx => hualpha x (by simp [hx]))
        (stripTabNewline rest) [a]]

/-! ## Lemmas about the color helpers -/

lemma clampByte_nonneg (x : Int) : 0 ≤ clampByte x := by
  unfold clampByte
  split_ifs <;> omega

lemma clampByte_le (x : Int) : clampByte x ≤ 255 := by
  unfold clampByte
  split_ifs <;> omega

lemma digitChar_hex : ∀ m, m < 16 → (hexDigitVal (Nat.digitChar m)).isSome = true := by
  decide

lemma hexDigitsAux_hex (fuel : Nat) :
    ∀ n c, c ∈ hexDigitsAux fuel n → (hexDigitVal c).isSome = true := by
  induction fuel with
  | zero => intro n c hc; cases hc
  | succ fuel ih =>
    intro n c hc
    rw [hexDigitsAux] at hc
    by_cases hn : n < 16
    · rw [if_pos hn] at hc
      rcases List.mem_singleton.mp hc with rfl
      exact digitChar_hex n hn
    · rw [if_neg hn] at hc
      rcases List.mem_append.mp hc with hc' | hc'
      · exact ih (n / 16) c hc'
      · rcases List.mem_singleton.mp hc' with rfl
        exact digitChar_hex (n % 16) (Nat.mod_lt n (by omega))

lemma hexDigitsAux_length (fuel : Nat) :
    ∀ k n, n < fuel → 16 ^ k ≤ n → n < 16 ^ (k + 1) →
      (hexDigitsAux fuel n).length = k + 1 := by
  induction fuel with
  | zero => intro k n h _ _; omega
  | succ fuel ih =>
    intro k n hn hlo hhi
    rw [hexDigitsAux]
    by_cases h16 : n < 16
    · rw [if_pos h16]
      have hk : k = 0 := by
        by_contra hk
        have h1 : (16 : Nat) = 16 ^ 1 := (pow_one 16).symm
        have h2 : (16 : Nat) ^ 1 ≤ 16 ^ k := Nat.pow_le_pow_right (by omega) (by omega)
        omega
      simp [hk]
    · rw [if_neg h16]
      have hk : 1 ≤ k := by
        by_contra hk
        have hk0 : k = 0 := by omega
        subst hk0
        rw [pow_one] at hhi
        omega
      have h1 : n / 16 < fuel := by
        have := Nat.div_lt_self (by omega : 0 < n) (by omega : 1 < 16)
        omega
      have h2 : 16 ^ (k - 1) ≤ n / 16 := by
        rw [Nat.le_div_iff_mul_le (by omega : 0 < 16)]
        calc 16 ^ (k - 1) * 16 = 16 ^ (k - 1 + 1) := (pow_succ 16 (k - 1)).symm
          _ = 16 ^ k := by congr 1; omega
          _ ≤ n := hlo
      have h3 : n / 16 < 16 ^ (k - 1 + 1) := by
        rw [Nat.div_lt_iff_lt_mul (by omega : 0 < 16)]
        calc n < 16 ^ (k + 1) := hhi
          _ = 16 ^ k * 16 := pow_succ 16 k
          _ = 16 ^ (k - 1 + 1) * 16 := by congr 2; omega
      have hrec := ih (k - 1) (n / 16) h1 h2 h3
      rw [List.length_append, hrec]
      simp
      omega

/-- Well-formedness of the `'#' + (0x1000000 + v).toString(16).slice(1)`
pattern: for clamped channels the result is `#` followed by exactly six
hexadecimal digits. -/
lemma hexColor_output (r g b : Int) (hr0 : 0 ≤ r) (hr : r ≤ 255)
    (hg0 : 0 ≤ g) (hg : g ≤ 255) (hb0 : 0 ≤ b) (hb : b ≤ 255) :
    isHexColor ('#' :: (toHexStr (16777216 + r * 65536 + g * 256 + b).toNat).drop 1) =
      true := by
  set n : Nat := (16777216 + r * 65536 + g * 256 + b).toNat with hn
  have hlo : 16777216 ≤ n := by omega
  have hhi : n < 268435456 := by omega
  have hlen : (toHexStr n).length = 7 := by
    have := hexDigitsAux_length (n + 1) 6 n (by omega)
      (by rw [show (16 : Nat) ^ 6 = 16777216 from by norm_num]; exact hlo)
      (by rw [show (16 : Nat) ^ (6 + 1) = 268435456 from by norm_num]; exact hhi)
    simpa using this
  show (((toHexStr n).drop 1).length == 6 &&
    ((toHexStr n).drop 1).all (fun c => (hexDigitVal c).isSome)) = true
  rw [Bool.and_eq_true]
  constructor
  · rw [List.length_drop, hlen]
    rfl
  · rw [List.all_eq_true]
    intro c hc
    exact hexDigitsAux_hex (n + 1) n c (List.mem_of_mem_drop hc)

/-! ## Round-trip lemmas for C10 -/

lemma digitVal_digitChar : ∀ m, m < 10 → (Nat.digitChar m).toNat - 48 = m := by decide

lemma decVal_natDigitsAux (fuel : Nat) :
    ∀ n, n < fuel → decVal (natDigitsAux fuel n) = n := by
  induction fuel with
  | zero => intro n h; omega
  | succ fuel ih =>
    intro n hn
    rw [natDigitsAux]
    by_cases h10 : n < 10
    · rw [if_pos h10]
      simp [decVal, digitVal_digitChar n h10]
    · rw [if_neg h10]
      have h1 : n / 10 < fuel := by
        have := Nat.div_lt_self (show 0 < n by omega) (show (1 : Nat) < 10 by omega)
        omega
      have h2 := ih (n / 10) h1
      unfold decVal at h2 ⊢
      rw [List.foldl_append, h2]
      simp [digitVal_digitChar (n % 10) (by omega)]
      omega

lemma decVal_natToDigits (n : Nat) : decVal (natToDigits n) = n :=
  decVal_natDigitsAux (n + 1) n (by omega)

lemma natDigitsAux_ne_nil (fuel n : Nat) (h : 0 < fuel) : natDigitsAux fuel n ≠ [] := by
  cases fuel with
  | zero => omega
  | succ fuel =>
    rw [natDigitsAux]
    split_ifs <;> simp

lemma natToDigits_ne_nil (n : Nat) : natToDigits n ≠ [] :=
  natDigitsAux_ne_nil (n + 1) n (by omega)

lemma digitRunsGo_nondigit (c : Char) (s : List Char) (h : c.isDigit = false) :
    digitRunsGo [] (c :: s) = digitRunsGo [] s := by
  simp [digitRunsGo, h]

lemma digitRunsGo_digits (ds : List Char) (hds : ∀ x ∈ ds, x.isDigit = true) :
    ∀ cur c s, c.isDigit = false → (cur ≠ [] ∨ ds ≠ []) →
      digitRunsGo cur (ds ++ c :: s) = (cur.reverse ++ ds) :: digitRunsGo [] s := by
  induction ds with
  | nil =>
    intro cur c s hc hne
    have hcur : cur ≠ [] := by
      rcases hne with h | h
      · exact h
      · exact absurd rfl h
    have hcur' : cur.isEmpty = false := by
      cases cur
      · exact absurd rfl hcur
      · rfl
    simp [digitRunsGo, hc, hcur']
  | cons d ds' ih =>
    intro cur c s hc hne
    have hd : d.isDigit = true := hds d (by simp)
    show digitRunsGo cur (d :: (ds' ++ c :: s)) = _
    rw [show digitRunsGo cur (d :: (ds' ++ c :: s)) =
        if d.isDigit then digitRunsGo (d :: cur) (ds' ++ c :: s)
        else if cur.isEmpty then digitRunsGo [] (ds' ++ c :: s)
        else cur.reverse :: digitRunsGo [] (ds' ++ c :: s) from rfl,
      if_pos hd,
      ih (fun x hx => hds x (by simp [hx])) (d :: cur) c s hc (Or.inl (by simp))]
    simp

lemma digitRuns_rgb (R G B : List Char)
    (hR : ∀ x ∈ R, x.isDigit = true) (hG : ∀ x ∈ G, x.isDigit = true)
    (hB : ∀ x ∈ B, x.isDigit = true)
    (hRne : R ≠ []) (hGne : G ≠ []) (hBne : B ≠ []) :
    digitRuns ('r' :: 'g' :: 'b' :: '(' ::
      (R ++ ',' :: ' ' :: (G ++ ',' :: ' ' :: (B ++ [')'])))) = [R, G, B] := by
  unfold digitRuns
  rw [digitRunsGo_nondigit 'r' _ (by decide), digitRunsGo_nondigit 'g' _ (by decide),
    digitRunsGo_nondigit 'b' _ (by decide), digitRunsGo_nondigit '(' _ (by decide),
    digitRunsGo_digits R hR [] ',' _ (by decide) (Or.inr hRne),
    digitRunsGo_nondigit ' ' _ (by decide),
    digitRunsGo_digits G hG [] ',' _ (by decide) (Or.inr hGne),
    digitRunsGo_nondigit ' ' _ (by decide),
    digitRunsGo_digits B hB [] ')' [] (by decide) (Or.inr hBne)]
  simp [digitRunsGo]

lemma hex_char_all : ∀ d ∈ lowerHexChars, (hexDigitVal d).isSome = true ∧
    (hexDigitVal d).getD 0 < 16 ∧ Nat.digitChar ((hexDigitVal d).getD 0) = d := by
  decide

lemma hex_char_cases (d : Char) (hd : isLowerHexDigit d = true) :
    ∃ v, hexDigitVal d = some v ∧ v < 16 ∧ Nat.digitChar v = d := by
  have hm : d ∈ lowerHexChars := of_decide_eq_true hd
  obtain ⟨h1, h2, h3⟩ := hex_char_all d hm
  cases hx : hexDigitVal d with
  | none => rw [hx] at h1; exact absurd h1 (by decide)
  | some v =>
    rw [hx] at h2 h3
    exact ⟨v, rfl, h2, h3⟩

lemma parseIntHex_pair (d0 d1 : Char) (v0 v1 : Nat)
    (h0 : hexDigitVal d0 = some v0) (h1 : hexDigitVal d1 = some v1) :
    parseIntHex [d0, d1] = some (v0 * 16 + v1) := by
  simp [parseIntHex, parseHexLoop, h0, h1]

lemma hexDigitsAux_small (fuel n : Nat) (hf : 0 < fuel) (hn : n < 16) :
    hexDigitsAux fuel n = [Nat.digitChar n] := by
  cases fuel with
  | zero => omega
  | succ fuel => rw [hexDigitsAux, if_pos hn]

lemma padded_toHexStr (a b : Nat) (ha : a < 16) (hb : b < 16) :
    padStart2 (toHexStr (a * 16 + b)) = [Nat.digitChar a, Nat.digitChar b] := by
  by_cases h0 : a = 0
  · subst h0
    rw [show 0 * 16 + b = b from by omega]
    unfold toHexStr
    rw [hexDigitsAux_small (b + 1) b (by omega) hb]
    simp [padStart2]
    rfl
  · have hn16 : ¬(a * 16 + b < 16) := by omega
    unfold toHexStr
    rw [hexDigitsAux, if_neg hn16,
      show (a * 16 + b) / 16 = a from by omega,
      show (a * 16 + b) % 16 = b from by omega,
      hexDigitsAux_small _ a (by omega) ha]
    simp [padStart2]

/-! ## Supporting lemmas -/

lemma countSelected_clearAll (l : List SchemeOption) : countSelected (clearAll l) = 0 := by
  induction l with
  | nil => rfl
  | cons o rest ih => simpa [clearAll, countSelected] using ih

lemma countSelected_selectOnly (i : Nat) (l : List SchemeOption) :
    countSelected (selectOnly i l) ≤ 1 := by
  induction l generalizing i with
  | nil => simp [selectOnly, countSelected]
  | cons o rest ih =>
    cases i with
    | zero => simp [selectOnly, countSelected, countSelected_clearAll]
    | succ k =>
      have := ih k
      simpa [selectOnly, countSelected] using this

/-! ## Claims -/

/-- C4 counterexample: from the reachable state produced by an editor
`change` event with unsaved edits (`hasUnsavedChanges = true`), clicking
the notice dismiss control still posts the `twae_hide_migration_notice`
AJAX action — the dismiss handler is not gated on the flag. -/
theorem dismiss_posts_despite_unsaved :
    (onEditorChange ⟨false, false, false⟩ false).hasUnsavedChanges = true ∧
    (onDismissClick (onEditorChange ⟨false, false, false⟩ false)).2 =
      [AjaxAction.hideNotice] := by
  constructor <;> rfl

/-- C4 (amended): the `twae_run_migration` action is posted only when the
unsaved-changes flag is false — the run handler returns early (with a
toast) whenever the flag is true; the dismiss action is not gated. -/
theorem run_migration_gated (st : TwaeState) (h : (onRunClick st).2 ≠ []) :
    st.hasUnsavedChanges = false := by
  unfold onRunClick at h
  by_cases hf : st.hasUnsavedChanges
  · simp [hf] at h
  · simpa using hf

theorem run_migration_gated_witness :
    (⟨false, false, false⟩ : TwaeState).hasUnsavedChanges = false :=
  run_migration_gated ⟨false, false, false⟩ (by simp [onRunClick])

/-- C5: whenever the unsaved-changes flag is true, `updateMigrationButtonState`
sets the button's `disabled` attribute to true; the `after:save` handler
clears the flag and re-enables the button (`disabled` set back to false). -/
theorem button_state_follows_flag :
    (∀ flag : Bool, flag = true → (updateMigrationButtonState flag).1 = true) ∧
    (∀ st : TwaeState, (onAfterSave st).hasUnsavedChanges = false ∧
      (onAfterSave st).buttonDisabled = false) := by
  constructor
  · intro flag h
    rw [h]
    rfl
  · intro st
    exact ⟨rfl, rfl⟩

theorem button_state_follows_flag_witness :
    (updateMigrationButtonState true).1 = true :=
  button_state_follows_flag.1 true rfl

/-- C8 counterexample: executing the scheme-selection handler on a DOM where
two `.color-option` elements carry `selected`, clicking one of them, leaves
both selected — the early return (`if ($option.hasClass('selected')) return;`)
skips the removal step, so the handler does not always establish the
at-most-one invariant. -/
theorem scheme_selection_two_selected :
    countSelected (handleSchemeSelection
      { options := [⟨true, true, "fresh".toList, "u.css".toList⟩,
                    ⟨true, true, "light".toList, "v.css".toList⟩]
        adminColorScheme := "fresh".toList
        currentScheme := some "fresh".toList
        stylesheetHref := none } 0 none 0).options = 2 := by
  rfl

/-- C8 (amended): the scheme-selection handler preserves the at-most-one
invariant: from any DOM state with at most one selected `.color-option`,
at most one is selected after the handler runs (clicking an unselected
option removes `selected` everywhere and adds it to exactly the clicked
one; clicking an already-selected option leaves the DOM unchanged). -/
theorem scheme_selection_at_most_one (st : SchemeState) (i : Nat)
    (isSafe : Option (List Char → Bool)) (now : Nat)
    (h : countSelected st.options ≤ 1) :
    countSelected (handleSchemeSelection st i isSafe now).options ≤ 1 := by
  unfold handleSchemeSelection
  cases hg : st.options.get? i with
  | none => exact h
  | some opt =>
    by_cases hs : opt.selected
    · simp [hg, hs]
      exact h
    · simp [hg, hs]
      exact countSelected_selectOnly i st.options

theorem scheme_selection_at_most_one_witness :
    countSelected (handleSchemeSelection
      { options := [⟨false, false, "fresh".toList, "u.css".toList⟩]
        adminColorScheme := "fresh".toList
        currentScheme := none
        stylesheetHref := none } 0 none 0).options ≤ 1 :=
  scheme_selection_at_most_one _ 0 none 0 (by decide)

/-- C6: whenever `sanitizeCssUrl` returns null for the clicked option's CSS
URL (with `this.currentScheme` being `undefined` at the call site), the
scheme-selection handler leaves the stylesheet `href` unchanged; the update
is silently skipped and no error is raised (the handler is a total
function). -/
theorem scheme_selection_href_unchanged (st : SchemeState) (i : Nat)
    (isSafe : Option (List Char → Bool)) (now : Nat)
    (h : ∀ opt, st.options.get? i = some opt →
      sanitizeCssUrl opt.cssUrl none isSafe now = none) :
    (handleSchemeSelection st i isSafe now).stylesheetHref = st.stylesheetHref := by
  unfold handleSchemeSelection
  cases hg : st.options.get? i with
  | none => rfl
  | some opt =>
    by_cases hs : opt.selected
    · simp [hs]
    · simp [hs, h opt hg]

lemma urlRejects_false_of_http (t s : List Char)
    (hs : extractScheme (stripTabNewline t) = some s)
    (hls : jsToLower s = "http".toList ∨ jsToLower s = "https".toList) :
    urlRejects t = false := by
  unfold extractScheme at hs
  cases hr : extractSchemeRest (stripTabNewline t) with
  | none => rw [hr] at hs; exact Option.noConfusion hs
  | some pr =>
    obtain ⟨s', rest⟩ := pr
    rw [hr] at hs
    have hss : s' = s := by simpa using hs
    subst hss
    have hup : urlProtocol t =
        (if urlParseOk s' rest then some (jsToLower s' ++ [':']) else none) := by
      unfold urlProtocol
      rw [hr]
    unfold urlRejects
    rw [hup]
    by_cases hok : urlParseOk s' rest = true
    · rw [if_pos hok]
      rcases hls with hx | hx <;> rw [hx] <;> decide
    · rw [if_neg hok]

lemma urlRejects_false_of_relative (t : List Char)
    (h : extractScheme (stripTabNewline t) = none) : urlRejects t = false := by
  unfold extractScheme at h
  have hr : extractSchemeRest (stripTabNewline t) = none := by
    cases hx : extractSchemeRest (stripTabNewline t) with
    | none => rfl
    | some pr => rw [hx] at h; simp at h
  have hup : urlProtocol t =
      (if relativeParseOk (stripTabNewline t) then some "https:".toList else none) := by
    unfold urlProtocol
    rw [hr]
  unfold urlRejects
  rw [hup]
  by_cases hok : relativeParseOk (stripTabNewline t) = true
  · rw [if_pos hok]
    decide
  · rw [if_neg hok]

/-- C9: for every accepted input and every `currentScheme` different from
`publishpress-custom`, `sanitizeCssUrl` returns the trimmed input string
unchanged — no cache-busting parameter or other modification. -/
theorem sanitizeCssUrl_noncustom_identity (cssUrl : List Char)
    (currentScheme : Option (List Char)) (isSafe : Option (List Char → Bool)) (now : Nat)
    (u : List Char)
    (h : sanitizeCssUrl cssUrl currentScheme isSafe now = some u)
    (hs : currentScheme ≠ some "publishpress-custom".toList) :
    u = jsTrim cssUrl := by
  simp only [sanitizeCssUrl] at h
  split_ifs at h with h1 h2 h3 h4 h5 h6 <;>
    first
      | exact Option.noConfusion h
      | exact absurd h5 hs
      | exact (Option.some.inj h).symm

theorem sanitizeCssUrl_noncustom_identity_witness :
    "https://example.com/a.css".toList = jsTrim " https://example.com/a.css ".toList :=
  sanitizeCssUrl_noncustom_identity " https://example.com/a.css ".toList
    (some "fresh".toList) none 0 _ (by decide) (by decide)

lemma digitChar_isDigit : ∀ m, m < 10 → (Nat.digitChar m).isDigit = true := by decide

lemma natDigitsAux_digit (fuel : Nat) :
    ∀ n c, c ∈ natDigitsAux fuel n → c.isDigit = true := by
  induction fuel with
  | zero => intro n c hc; cases hc
  | succ fuel ih =>
    intro n c hc
    rw [natDigitsAux] at hc
    by_cases hn : n < 10
    · rw [if_pos hn] at hc
      rcases List.mem_singleton.mp hc with rfl
      exact digitChar_isDigit n hn
    · rw [if_neg hn] at hc
      rcases List.mem_append.mp hc with hc' | hc'
      · exact ih (n / 10) c hc'
      · rcases List.mem_singleton.mp hc' with rfl
        exact digitChar_isDigit (n % 10) (Nat.mod_lt n (by omega))

lemma natToDigits_digit (n : Nat) : ∀ c ∈ natToDigits n, c.isDigit = true :=
  natDigitsAux_digit (n + 1) n

lemma verAt_false_of_digit (c : Char) (rest : List Char) (h : c.isDigit = true) :
    verAt (c :: rest) = false := by
  have h1 : (c == '?') = false := by
    cases hq : c == '?'
    · rfl
    · rw [eq_of_beq hq] at h
      exact absurd h (by decide)
  have h2 : (c == '&') = false := by
    cases hq : c == '&'
    · rfl
    · rw [eq_of_beq hq] at h
      exact absurd h (by decide)
  simp [verAt, h1, h2]

lemma countVer_digits (ds : List Char) (h : ∀ c ∈ ds, c.isDigit = true) :
    countVer ds = 0 := by
  induction ds with
  | nil => rfl
  | cons c rest ih =>
    have hc := h c (by simp)
    simp [countVer, verAt_false_of_digit c rest hc,
      ih (fun x hx => h x (by simp [hx]))]

lemma countVer_marker (q : Char) (hq : q = '?' ∨ q = '&') (ds : List Char)
    (hds : ∀ c ∈ ds, c.isDigit = true) :
    countVer (q :: 'v' :: 'e' :: 'r' :: '=' :: ds) = 1 := by
  have h0 : countVer ds = 0 := countVer_digits ds hds
  have hq' : (q == '?' || q == '&') = true := by rcases hq with rfl | rfl <;> rfl
  simp [countVer, verAt, List.isPrefixOf, hq', h0,
    show (('v' == '?') || ('v' == '&')) = false from rfl,
    show (('e' == '?') || ('e' == '&')) = false from rfl,
    show (('r' == '?') || ('r' == '&')) = false from rfl,
    show (('=' == '?') || ('=' == '&')) = false from rfl]

lemma isPrefixOf_ver_stable (s : List Char) (q : Char) (hq : q = '?' ∨ q = '&')
    (B : List Char) :
    List.isPrefixOf ['v', 'e', 'r', '='] (s ++ q :: B) =
      List.isPrefixOf ['v', 'e', 'r', '='] s := by
  have hv : ('v' == q) = false := by rcases hq with rfl | rfl <;> rfl
  have he : ('e' == q) = false := by rcases hq with rfl | rfl <;> rfl
  have hr : ('r' == q) = false := by rcases hq with rfl | rfl <;> rfl
  have hE : ('=' == q) = false := by rcases hq with rfl | rfl <;> rfl
  rcases s with _ | ⟨a, _ | ⟨b, _ | ⟨c, _ | ⟨d, s'⟩⟩⟩⟩ <;>
    simp [List.isPrefixOf, hv, he, hr, hE]

lemma verAt_append_stable (c : Char) (s : List Char) (q : Char)
    (hq : q = '?' ∨ q = '&') (B : List Char) :
    verAt (c :: (s ++ q :: B)) = verAt (c :: s) := by
  show ((c == '?' || c == '&') && List.isPrefixOf ['v', 'e', 'r', '='] (s ++ q :: B)) =
    ((c == '?' || c == '&') && List.isPrefixOf ['v', 'e', 'r', '='] s)
  rw [isPrefixOf_ver_stable s q hq B]

lemma countVer_append (s : List Char) (q : Char) (hq : q = '?' ∨ q = '&')
    (B : List Char) :
    countVer (s ++ q :: B) = countVer s + countVer (q :: B) := by
  induction s with
  | nil => simp [countVer]
  | cons c s' ih =>
    show countVer (c :: (s' ++ q :: B)) = countVer (c :: s') + countVer (q :: B)
    rw [show countVer (c :: (s' ++ q :: B)) =
        (if verAt (c :: (s' ++ q :: B)) then 1 else 0) + countVer (s' ++ q :: B) from rfl,
      show countVer (c :: s') = (if verAt (c :: s') then 1 else 0) + countVer s' from rfl,
      verAt_append_stable c s' q hq B, ih]
    omega

lemma tryMatch_eq_none (c : Char) (rest : List Char) (h : verAt (c :: rest) = false) :
    tryMatch (c :: rest) = none := by
  simp [tryMatch, h]

lemma replaceVer_eq_self (s : List Char) (h : countVer s = 0) : replaceVer s = s := by
  induction s with
  | nil => rfl
  | cons c rest ih =>
    have hv : verAt (c :: rest) = false := by
      cases hb : verAt (c :: rest)
      · rfl
      · rw [countVer, hb] at h
        simp at h
    have hrest : countVer rest = 0 := by
      rw [countVer, hv] at h
      simpa using h
    simp [replaceVer, tryMatch_eq_none c rest hv, ih hrest]

/-- C2 (amended): with `currentScheme = 'publishpress-custom'`, for every
accepted input URL that carries no existing `ver=` parameter, the returned
URL contains exactly one `ver=` query parameter.  (Inputs that already carry
`ver` parameters can retain extras: the removal regex has no `g` flag, so
only the first existing numeric `ver` parameter is removed.) -/
theorem sanitize_custom_single_ver (cssUrl : List Char)
    (isSafe : Option (List Char → Bool)) (now : Nat) (u : List Char)
    (h : sanitizeCssUrl cssUrl (some "publishpress-custom".toList) isSafe now = some u)
    (h0 : countVer (jsTrim cssUrl) = 0) :
    countVer u = 1 := by
  simp only [sanitizeCssUrl] at h
  split_ifs at h with h1 h2 h3 h4 h5 h6 <;>
    try exact Option.noConfusion h
  · -- contains '?': the new parameter is appended with '&'
    rcases Option.some.inj h with rfl
    rw [replaceVer_eq_self _ h0]
    simp only [List.append_assoc]
    show countVer (jsTrim cssUrl ++ '&' :: 'v' :: 'e' :: 'r' :: '=' :: natToDigits now) = 1
    rw [countVer_append (jsTrim cssUrl) '&' (Or.inr rfl)
        ('v' :: 'e' :: 'r' :: '=' :: natToDigits now), h0,
      countVer_marker '&' (Or.inr rfl) (natToDigits now) (natToDigits_digit now)]
  · -- no '?': the new parameter is appended with '?'
    rcases Option.some.inj h with rfl
    rw [replaceVer_eq_self _ h0]
    simp only [List.append_assoc]
    show countVer (jsTrim cssUrl ++ '?' :: 'v' :: 'e' :: 'r' :: '=' :: natToDigits now) = 1
    rw [countVer_append (jsTrim cssUrl) '?' (Or.inl rfl)
        ('v' :: 'e' :: 'r' :: '=' :: natToDigits now), h0,
      countVer_marker '?' (Or.inl rfl) (natToDigits now) (natToDigits_digit now)]

theorem sanitize_custom_single_ver_witness :
    countVer "http://e.com/a.css?ver=5".toList = 1 :=
  sanitize_custom_single_ver "http://e.com/a.css".toList none 5 _ (by decide) (by decide)

/-- Helper for C7: if the trimmed URL is a relative URL or an absolute URL
with an http(s) scheme, then its lowercasing cannot start with
`w ++ ":"` for a dangerous scheme word `w`. -/
lemma bad_scheme_not_prefixed (t : List Char) (w : List Char) (hw : ∀ d ∈ w, goodL d = true)
    (hne : w ≠ [])
    (hurl : (∃ s, extractScheme (stripTabNewline t) = some s ∧
              (jsToLower s = "http".toList ∨ jsToLower s = "https".toList)) ∨
            extractScheme (stripTabNewline t) = none)
    (hwne : w ≠ "http".toList ∧ w ≠ "https".toList) :
    (w ++ [':']).isPrefixOf (jsToLower t) = false := by
  cases hb : (w ++ [':']).isPrefixOf (jsToLower t)
  · rfl
  · exfalso
    obtain ⟨u, hu, hlu⟩ := extractScheme_of_prefixed w t hw hne hb
    rcases hurl with ⟨s, hs, hws⟩ | hnone
    · rw [hu] at hs
      rcases Option.some.inj hs with rfl
      rcases hws with hx | hx
      · exact hwne.1 (hlu.symm.trans hx)
      · exact hwne.2 (hlu.symm.trans hx)
    · rw [hnone] at hu
      exact Option.noConfusion hu

/-- C7: every non-empty URL string that passes the optional validator and is
either an absolute URL with scheme `http`/`https` or a relative URL (no
scheme) is accepted: `sanitizeCssUrl` returns a non-null string. -/
theorem sanitizeCssUrl_accepts_http (cssUrl : List Char)
    (currentScheme : Option (List Char)) (isSafe : Option (List Char → Bool)) (now : Nat)
    (hne : jsTrim cssUrl ≠ [])
    (hsafe : safeCheckFails isSafe (jsTrim cssUrl) = false)
    (hurl : (∃ s, extractScheme (stripTabNewline (jsTrim cssUrl)) = some s ∧
              (jsToLower s = "http".toList ∨ jsToLower s = "https".toList)) ∨
            extractScheme (stripTabNewline (jsTrim cssUrl)) = none) :
    sanitizeCssUrl cssUrl currentScheme isSafe now ≠ none := by
  have hj : "javascript:".toList.isPrefixOf (jsToLower (jsTrim cssUrl)) = false := by
    rw [show "javascript:".toList = "javascript".toList ++ [':'] from by decide]
    exact bad_scheme_not_prefixed _ _ (by decide) (by decide) hurl (by decide)
  have hd : "data:".toList.isPrefixOf (jsToLower (jsTrim cssUrl)) = false := by
    rw [show "data:".toList = "data".toList ++ [':'] from by decide]
    exact bad_scheme_not_prefixed _ _ (by decide) (by decide) hurl (by decide)
  have hv : "vbscript:".toList.isPrefixOf (jsToLower (jsTrim cssUrl)) = false := by
    rw [show "vbscript:".toList = "vbscript".toList ++ [':'] from by decide]
    exact bad_scheme_not_prefixed _ _ (by decide) (by decide) hurl (by decide)
  have hrej : urlRejects (jsTrim cssUrl) = false := by
    rcases hurl with ⟨s, hs, hws⟩ | hnone
    · exact urlRejects_false_of_http _ s hs hws
    · exact urlRejects_false_of_relative _ hnone
  simp only [sanitizeCssUrl]
  rw [if_neg hne, if_neg (by simp [hsafe]),
    if_neg (show ¬(("javascript:".toList.isPrefixOf (jsToLower (jsTrim cssUrl)) ||
        "data:".toList.isPrefixOf (jsToLower (jsTrim cssUrl)) ||
        "vbscript:".toList.isPrefixOf (jsToLower (jsTrim cssUrl))) = true) from by
      rw [hj, hd, hv]; decide),
    if_neg (show ¬(urlRejects (jsTrim cssUrl) = true) from by simp [hrej])]
  split_ifs <;> simp

theorem sanitizeCssUrl_accepts_http_witness :
    sanitizeCssUrl "https://example.com/x.css".toList none none 0 ≠ none :=
  sanitizeCssUrl_accepts_http "https://example.com/x.css".toList none none 0
    (by decide) (by decide)
    (Or.inl ⟨"https".toList, by decide, Or.inr (by decide)⟩)

/-- C10: for every lowercase 6-digit hex color `#rrggbb`, converting it with
`hexToRgb` and feeding the result back through `rgbToHex` as
`'rgb(' + hexToRgb(h) + ')'` returns `h`: hex-to-RGB followed by RGB-to-hex
is a round trip. -/
theorem hex_rgb_roundtrip (h : List Char) (hh : isLowerHexColor h = true) :
    rgbToHex ("rgb(".toList ++ hexToRgb h ++ [')']) = h := by
  rcases h with _ | ⟨c, ds⟩
  · exact absurd hh (by decide)
  simp only [isLowerHexColor, Bool.and_eq_true, beq_iff_eq] at hh
  obtain ⟨⟨hc, hlen⟩, hall⟩ := hh
  subst hc
  rcases ds with _ | ⟨d0, ds⟩
  · simp only [List.length_nil] at hlen; omega
  rcases ds with _ | ⟨d1, ds⟩
  · simp only [List.length_cons, List.length_nil] at hlen; omega
  rcases ds with _ | ⟨d2, ds⟩
  · simp only [List.length_cons, List.length_nil] at hlen; omega
  rcases ds with _ | ⟨d3, ds⟩
  · simp only [List.length_cons, List.length_nil] at hlen; omega
  rcases ds with _ | ⟨d4, ds⟩
  · simp only [List.length_cons, List.length_nil] at hlen; omega
  rcases ds with _ | ⟨d5, ds⟩
  · simp only [List.length_cons, List.length_nil] at hlen; omega
  rcases ds with _ | ⟨d6, ds⟩
  case cons.cons.cons.cons.cons.cons.cons =>
    simp only [List.length_cons] at hlen; omega
  simp only [List.all_cons, List.all_nil, Bool.and_eq_true, Bool.and_true] at hall
  obtain ⟨h0, h1, h2, h3, h4, h5⟩ := hall
  obtain ⟨v0, hv0, hv0lt, hd0⟩ := hex_char_cases d0 h0
  obtain ⟨v1, hv1, hv1lt, hd1⟩ := hex_char_cases d1 h1
  obtain ⟨v2, hv2, hv2lt, hd2⟩ := hex_char_cases d2 h2
  obtain ⟨v3, hv3, hv3lt, hd3⟩ := hex_char_cases d3 h3
  obtain ⟨v4, hv4, hv4lt, hd4⟩ := hex_char_cases d4 h4
  obtain ⟨v5, hv5, hv5lt, hd5⟩ := hex_char_cases d5 h5
  have hrgb : hexToRgb ['#', d0, d1, d2, d3, d4, d5] =
      natToDigits (v0 * 16 + v1) ++ ',' :: ' ' :: (natToDigits (v2 * 16 + v3) ++
        ',' :: ' ' :: natToDigits (v4 * 16 + v5)) := by
    simp only [hexToRgb]
    rw [show removeFirstHash ['#', d0, d1, d2, d3, d4, d5] =
        [d0, d1, d2, d3, d4, d5] from rfl,
      show expand3 [d0, d1, d2, d3, d4, d5] = [d0, d1, d2, d3, d4, d5] from rfl,
      show [d0, d1, d2, d3, d4, d5].take 2 = [d0, d1] from rfl,
      show ([d0, d1, d2, d3, d4, d5].drop 2).take 2 = [d2, d3] from rfl,
      show ([d0, d1, d2, d3, d4, d5].drop 4).take 2 = [d4, d5] from rfl,
      parseIntHex_pair d0 d1 v0 v1 hv0 hv1, parseIntHex_pair d2 d3 v2 v3 hv2 hv3,
      parseIntHex_pair d4 d5 v4 v5 hv4 hv5]
    simp [natOrNaN, List.append_assoc]
  rw [hrgb]
  have harg : "rgb(".toList ++ (natToDigits (v0 * 16 + v1) ++ ',' :: ' ' ::
      (natToDigits (v2 * 16 + v3) ++ ',' :: ' ' :: natToDigits (v4 * 16 + v5))) ++ [')'] =
      'r' :: 'g' :: 'b' :: '(' :: (natToDigits (v0 * 16 + v1) ++ ',' :: ' ' ::
        (natToDigits (v2 * 16 + v3) ++ ',' :: ' ' ::
          (natToDigits (v4 * 16 + v5) ++ [')']))) := by
    simp [List.append_assoc]
  rw [harg]
  simp only [rgbToHex]
  rw [if_neg (by
    intro hcontra
    simp only [List.head?_cons, Option.some.injEq] at hcontra
    exact absurd hcontra (by decide))]
  rw [digitRuns_rgb (natToDigits (v0 * 16 + v1)) (natToDigits (v2 * 16 + v3))
    (natToDigits (v4 * 16 + v5)) (natToDigits_digit _) (natToDigits_digit _)
    (natToDigits_digit _) (natToDigits_ne_nil _) (natToDigits_ne_nil _)
    (natToDigits_ne_nil _)]
  show '#' :: (padStart2 (toHexStr (decVal (natToDigits (v0 * 16 + v1)))) ++
      padStart2 (toHexStr (decVal (natToDigits (v2 * 16 + v3)))) ++
      padStart2 (toHexStr (decVal (natToDigits (v4 * 16 + v5))))) =
    ['#', d0, d1, d2, d3, d4, d5]
  rw [decVal_natToDigits, decVal_natToDigits, decVal_natToDigits,
    padded_toHexStr v0 v1 hv0lt hv1lt, padded_toHexStr v2 v3 hv2lt hv3lt,
    padded_toHexStr v4 v5 hv4lt hv5lt, hd0, hd1, hd2, hd3, hd4, hd5]
  rfl

theorem hex_rgb_roundtrip_witness :
    rgbToHex ("rgb(".toList ++ hexToRgb "#655997".toList ++ [')']) =
      "#655997".toList :=
  hex_rgb_roundtrip "#655997".toList (by decide)

/-- C2 counterexample: with the custom scheme selected, the accepted input
`http://e.com/a?ver=1&ver=2` (which already carries two `ver` parameters)
yields a URL containing two `ver=` query parameters, not exactly one: the
removal regex has no `g` flag, so only the first existing `ver` parameter
is removed before the new one is appended. -/
theorem ver_param_duplicated :
    sanitizeCssUrl "http://e.com/a?ver=1&ver=2".toList
      (some "publishpress-custom".toList) none 7 =
      some "http://e.com/a?ver=2&ver=7".toList ∧
    countVer "http://e.com/a?ver=2&ver=7".toList = 2 := by
  constructor <;> decide

theorem scheme_selection_href_unchanged_witness :
    (handleSchemeSelection
      { options := [⟨false, false, "evil".toList, "javascript:alert(1)".toList⟩]
        adminColorScheme := "fresh".toList
        currentScheme := none
        stylesheetHref := some "old.css".toList } 0 none 0).stylesheetHref =
      some "old.css".toList :=
  scheme_selection_href_unchanged _ 0 none 0
    (by
      intro opt hopt
      have : opt = ⟨false, false, "evil".toList, "javascript:alert(1)".toList⟩ :=
        (Option.some.injEq _ _).mp hopt.symm
      rw [this]
      decide)
